import Mathlib

/-!
Verification development for the Data-Insighter script (`src/main.py`).

The script is a linear Streamlit flow: load a CSV/Excel table, drop rows
with missing values, restrict to user-selected columns, parse AI-suggested
chart kinds, wrap the AI summary for an HTML fragment, write a plain PDF,
and keep an append-only chat log.  Each section below shallowly embeds the
corresponding part of `main.py` and proves the documented properties.
-/

namespace DataInsighter

/-! ### Tables: `pd.read_csv` result, `df.dropna`, `df[selected_columns]`

A table is a list of column names plus rows of optional cells (`none`
models a pandas missing value / NaN).  `main.py` lines 62-68:

    df.dropna(inplace=True)
    selected_columns = st.multiselect("Choose columns:", df.columns.tolist(), ...)
    if selected_columns:
        df = df[selected_columns]
-/

/-- An in-memory table: named columns and rows of optional cells. -/
structure Table (α : Type) where
  columns : List String
  rows : List (List (Option α))
deriving DecidableEq

/-- A row is complete when none of its cells is missing. -/
def rowComplete {α : Type} (r : List (Option α)) : Bool :=
  r.all Option.isSome

/-- Embedding of `df.dropna(inplace=True)`: remove every row that has at
least one missing value, over all columns of the table. -/
def dropna {α : Type} (t : Table α) : Table α :=
  ⟨t.columns, t.rows.filter rowComplete⟩

/-- Look up the cell bound to column `name` in an association of column
names to cells (first match wins, as pandas column labels are unique). -/
def findCol {α : Type} (assoc : List (String × Option α)) (name : String) : Option α :=
  match assoc with
  | [] => none
  | p :: rest => if p.1 = name then p.2 else findCol rest name

/-- Project one row onto the selected column names. -/
def projRow {α : Type} (cols : List String) (sel : List String)
    (r : List (Option α)) : List (Option α) :=
  sel.map (findCol (cols.zip r))

/-- Embedding of the column-subset step: `if selected_columns: df = df[selected_columns]`.
An empty selection is falsy in Python, so the filter is skipped. -/
def applySelect {α : Type} (sel : List String) (t : Table α) : Table α :=
  if sel.isEmpty then t else ⟨sel, t.rows.map (projRow t.columns sel)⟩

/-- The whole load pipeline after a successful parse: drop incomplete rows,
then restrict to the selected columns (`main.py` lines 62-68, in that order). -/
def loadProcess {α : Type} (t : Table α) (sel : List String) : Table α :=
  applySelect sel (dropna t)

theorem findCol_cons_ne {α : Type} (c : String) (x : Option α)
    (l : List (String × Option α)) (name : String) (h : c ≠ name) :
    findCol ((c, x) :: l) name = findCol l name := by
  simp [findCol, h]

theorem findCol_isSome {α : Type} :
    ∀ (cols : List String) (r : List (Option α)) (name : String),
      r.length = cols.length → name ∈ cols →
      (∀ c ∈ r, c.isSome = true) → (findCol (cols.zip r) name).isSome = true := by
  intro cols
  induction cols with
  | nil => intro r name _ hmem; cases hmem
  | cons c cs ih =>
      intro r name hlen hmem hall
      cases r with
      | nil => simp at hlen
      | cons x xs =>
          simp only [List.zip_cons_cons, findCol]
          by_cases hc : c = name
          · simp only [hc, if_pos rfl]
            exact hall x (List.mem_cons_self x xs)
          · simp only [if_neg hc]
            have hmem' : name ∈ cs := by
              cases List.mem_cons.mp hmem with
              | inl h => exact absurd h.symm hc
              | inr h => exact h
            have hlen' : xs.length = cs.length := by
              simpa using hlen
            exact ih xs name hlen' hmem' (fun c hc => hall c (List.mem_cons_of_mem x hc))

theorem projRow_self {α : Type} :
    ∀ (cols : List String) (r : List (Option α)),
      cols.Nodup → r.length = cols.length → projRow cols cols r = r := by
  intro cols
  induction cols with
  | nil =>
      intro r _ hlen
      cases r with
      | nil => rfl
      | cons x xs => simp at hlen
  | cons c cs ih =>
      intro r hnd hlen
      cases r with
      | nil => simp at hlen
      | cons x xs =>
          have hnotmem : c ∉ cs := (List.nodup_cons.mp hnd).1
          have hnd' : cs.Nodup := (List.nodup_cons.mp hnd).2
          have hlen' : xs.length = cs.length := by simpa using hlen
          have hhead : findCol ((c, x) :: cs.zip xs) c = x := by
            simp [findCol]
          have hmap : cs.map (findCol ((c, x) :: cs.zip xs)) = cs.map (findCol (cs.zip xs)) := by
            apply List.map_congr_left
            intro n hn
            exact findCol_cons_ne c x (cs.zip xs) n (fun hcn => hnotmem (hcn ▸ hn))
          show findCol ((c, x) :: cs.zip xs) c :: cs.map (findCol ((c, x) :: cs.zip xs)) = x :: xs
          rw [hhead, hmap]
          have := ih xs hnd' hlen'
          simpa [projRow] using this

/-- C10: an empty column selection leaves the table untouched (the Python
truthiness test `if selected_columns:` skips the filter entirely). -/
theorem empty_selection_noop {α : Type} : ∀ t : Table α, applySelect [] t = t := by
  intro t
  rfl

/-- C9: the number of rows surviving the load pipeline equals the number of
rows that are complete over ALL original columns, for every column
selection.  Hence a row whose only missing value lies in a deselected
column is still removed: missing-value removal runs before, and
independently of, the column-subset filter. -/
theorem dropna_precedes_selection {α : Type} :
    ∀ (t : Table α) (sel : List String),
      (loadProcess t sel).rows.length = t.rows.countP rowComplete := by
  intro t sel
  unfold loadProcess applySelect dropna
  by_cases h : sel.isEmpty
  · simp [h, List.countP_eq_length_filter]
  · simp [h, List.countP_eq_length_filter]

/-- C3: after the load pipeline (dropna, then column selection drawn from the
table's own columns), no surviving row contains a missing value. -/
theorem load_rows_complete {α : Type} (t : Table α) (sel : List String)
    (hsub : sel.all (fun n => t.columns.contains n) = true)
    (hlen : t.rows.all (fun r => decide (r.length = t.columns.length)) = true) :
    (loadProcess t sel).rows.all rowComplete = true := by
  rw [List.all_eq_true] at hsub hlen ⊢
  intro r hr
  unfold loadProcess applySelect dropna at hr
  by_cases h : sel.isEmpty
  · simp only [h, if_pos] at hr
    exact (List.mem_filter.mp hr).2
  · simp only [h, if_neg, Bool.false_eq_true, not_false_eq_true] at hr
    simp only [List.mem_map] at hr
    obtain ⟨r0, hr0, hproj⟩ := hr
    have hr0mem : r0 ∈ t.rows := (List.mem_filter.mp hr0).1
    have hr0c : rowComplete r0 = true := (List.mem_filter.mp hr0).2
    have hr0all : ∀ c ∈ r0, c.isSome = true := by
      rw [rowComplete, List.all_eq_true] at hr0c
      exact hr0c
    subst hproj
    rw [rowComplete, List.all_eq_true]
    intro c hc
    rw [projRow, List.mem_map] at hc
    obtain ⟨name, hname, hcol⟩ := hc
    have hnamecols : name ∈ t.columns := by
      have := hsub name hname
      simpa using this
    have hr0len : r0.length = t.columns.length := by
      have := hlen r0 hr0mem
      simpa using this
    subst hcol
    exact findCol_isSome t.columns r0 name hr0len hnamecols hr0all

theorem load_rows_complete_witness :
    (["region"].all (fun n => (Table.mk ["region", "sales"]
        [[some 1, none], [some 2, some 3]] : Table Nat).columns.contains n) = true) ∧
    ((Table.mk ["region", "sales"] [[some 1, none], [some 2, some 3]] : Table Nat).rows.all
        (fun r => decide (r.length = (Table.mk ["region", "sales"]
          [[some 1, none], [some 2, some 3]] : Table Nat).columns.length)) = true) ∧
    (loadProcess (Table.mk ["region", "sales"] [[some 1, none], [some 2, some 3]] : Table Nat)
        ["region"]).rows.all rowComplete = true :=
  ⟨by decide, by decide,
    load_rows_complete (Table.mk ["region", "sales"] [[some 1, none], [some 2, some 3]])
      ["region"] (by decide) (by decide)⟩

/-- C4: selecting the full column list is a no-op: it restores exactly the
loaded table, with the same columns in the same order and the same rows. -/
theorem full_selection_id {α : Type} (t : Table α)
    (hnd : t.columns.Nodup)
    (hlen : t.rows.all (fun r => decide (r.length = t.columns.length)) = true) :
    applySelect t.columns t = t := by
  rw [List.all_eq_true] at hlen
  unfold applySelect
  by_cases h : t.columns.isEmpty
  · simp [h]
  · simp only [h, Bool.false_eq_true, if_neg, not_false_eq_true]
    obtain ⟨cols, rows⟩ := t
    simp only
    congr 1
    have : ∀ r ∈ rows, projRow cols cols r = r := by
      intro r hr
      have hrl : r.length = cols.length := by
        have := hlen r hr
        simpa using this
      exact projRow_self cols r hnd hrl
    calc rows.map (projRow cols cols) = rows.map id := List.map_congr_left this
      _ = rows := List.map_id rows

theorem full_selection_id_witness :
    ((Table.mk ["a", "b"] [[some 1, some 2], [some 3, some 4]] : Table Nat).columns.Nodup) ∧
    ((Table.mk ["a", "b"] [[some 1, some 2], [some 3, some 4]] : Table Nat).rows.all
        (fun r => decide (r.length = (Table.mk ["a", "b"]
          [[some 1, some 2], [some 3, some 4]] : Table Nat).columns.length)) = true) ∧
    applySelect ["a", "b"]
        (Table.mk ["a", "b"] [[some 1, some 2], [some 3, some 4]] : Table Nat) =
      Table.mk ["a", "b"] [[some 1, some 2], [some 3, some 4]] :=
  ⟨by decide, by decide,
    full_selection_id (Table.mk ["a", "b"] [[some 1, some 2], [some 3, some 4]])
      (by decide) (by decide)⟩

/-! ### Python string primitives

`main.py` uses `str.split`, `str.strip`, `str.lower` and slicing.  These are
embedded structurally over the character list of a `String` (Python slices
and splits operate on code points, as `List Char` does). -/

/-- Attach a character to the front of the first piece of a split. -/
def consHead (c : Char) : List (List Char) → List (List Char)
  | [] => [[c]]
  | l :: ls => (c :: l) :: ls

/-- Split a character list at every occurrence of `sep`, keeping empty
pieces, exactly like Python `str.split(sep)` for a one-character separator
(so `"".split(sep) == [""]` and a trailing separator yields a final `""`). -/
def splitChar (sep : Char) : List Char → List (List Char)
  | [] => [[]]
  | c :: cs => if c = sep then [] :: splitChar sep cs else consHead c (splitChar sep cs)

/-- Remove leading and trailing whitespace characters. -/
def trimChars (l : List Char) : List Char :=
  ((l.dropWhile Char.isWhitespace).reverse.dropWhile Char.isWhitespace).reverse

/-- Embedding of Python `str.strip()`. -/
def pyStrip (s : String) : String := ⟨trimChars s.data⟩

/-- Embedding of Python `str.lower()`. -/
def pyLower (s : String) : String := ⟨s.data.map Char.toLower⟩

/-- Embedding of Python `str.split(sep)` for a one-character separator. -/
def pySplitChar (sep : Char) (s : String) : List String :=
  (splitChar sep s.data).map String.mk

/-- Embedding of Python slicing `s[:n]`. -/
def pySlice (s : String) (n : Nat) : String := ⟨s.data.take n⟩

/-! ### Visualization Advisor (`main.py` lines 86-92)

    viz_types = [v.strip().lower() for v in gemini_response.text.split(",")
                 if v.strip().lower() in ["pie", "bar", "line", "scatter", "histogram"]]
    if len(viz_types) < 5:
        viz_types = ["bar", "line", "pie", "scatter", "histogram"][:5]
-/

/-- The fixed enumeration of accepted chart kinds. -/
def vizEnum : List String := ["pie", "bar", "line", "scatter", "histogram"]

/-- The fixed default list, truncated to five as in the source. -/
def defaultViz : List String := ["bar", "line", "pie", "scatter", "histogram"].take 5

/-- The comprehension: strip and lower-case each comma-separated token of the
raw AI text, keeping only tokens in the fixed enumeration. -/
def vizTokens (text : String) : List String :=
  ((pySplitChar ',' text).map (fun v => pyLower (pyStrip v))).filter
    (fun v => vizEnum.contains v)

/-- Embedding of the `viz_types` computation: the valid tokens, replaced by
the default list when fewer than five of them were found. -/
def viz_types (text : String) : List String :=
  if (vizTokens text).length < 5 then defaultViz else vizTokens text

/-- C1 counterexample: a raw AI text with six valid tokens yields a
six-entry list — the output does not always contain exactly five entries,
because the source never truncates a long valid token list. -/
theorem viz_types_six_entries :
    viz_types "pie,pie,pie,pie,pie,pie" = ["pie", "pie", "pie", "pie", "pie", "pie"] ∧
    (viz_types "pie,pie,pie,pie,pie,pie").length ≠ 5 := by
  constructor
  · decide
  · decide

/-- C1 (amended): the output list always has at least five entries, every
entry is drawn from the fixed enumeration, and whenever fewer than five
valid tokens are parsed the entire response is replaced by the fixed
default list; with five or more valid tokens the output is exactly the
token list and may exceed five entries. -/
theorem viz_types_amended_spec :
    ∀ text : String,
      5 ≤ (viz_types text).length ∧
      (viz_types text).all (fun v => vizEnum.contains v) = true ∧
      ((vizTokens text).length < 5 → viz_types text = defaultViz) := by
  intro text
  unfold viz_types
  by_cases h : (vizTokens text).length < 5
  · rw [if_pos h]
    exact ⟨by decide, by decide, fun _ => rfl⟩
  · rw [if_neg h]
    refine ⟨by omega, ?_, fun hc => absurd hc h⟩
    rw [List.all_eq_true]
    intro v hv
    exact (List.mem_filter.mp hv).2

theorem viz_types_amended_spec_witness :
    (vizTokens "no usable tokens").length < 5 ∧
    viz_types "no usable tokens" = defaultViz :=
  ⟨by decide, (viz_types_amended_spec "no usable tokens").2.2 (by decide)⟩

/-! ### Insight Summarizer (`main.py` line 132)

    summary_text = summary_response.text if hasattr(summary_response, "text")
                   else "No insights generated."

The optional argument models the presence or absence of the `text`
attribute on the language-model response. -/

/-- Embedding of the `summary_text` assignment. -/
def summary_text (resp : Option String) : String :=
  match resp with
  | some t => t
  | none => "No insights generated."

/-- The advisor branch by contrast halts (`st.stop()`) when the response has
no text (`main.py` lines 90-92); `none` models the halt. -/
def advisorStep (resp : Option String) : Option (List String) :=
  match resp with
  | some t => some (viz_types t)
  | none => none

/-- The summarizer never halts: line 132 is a plain conditional expression
with no `st.stop()`, so the flow always continues with some string. -/
def summaryStep (resp : Option String) : Option String :=
  some (summary_text resp)

/-- C8: when the summary response carries no text the displayed summary is
exactly the fixed placeholder, the flow continues (the step always
produces a value), and when text is present it is displayed verbatim. -/
theorem summary_placeholder_spec :
    summaryStep none = some "No insights generated." ∧
    (∀ resp : Option String, (summaryStep resp).isSome = true) ∧
    (∀ t : String, summaryStep (some t) = some t) :=
  ⟨rfl, fun _ => rfl, fun _ => rfl⟩

/-! ### Chat Assistant (`main.py` lines 185-206)

    def chatbot_response(user_query):
        ...
        return chat_response.text[:500] if hasattr(chat_response, "text") else "No response."

    if st.button("Ask AI"):
        if user_query:
            response = chatbot_response(user_query)
            chat_history.append({"query": user_query, "response": response})
    ...
    for chat in reversed(chat_history): ...

The optional argument of `chatbot_response` models the presence or absence
of the `text` attribute on the language-model response. -/

/-- Embedding of `chatbot_response`: truncate the model text to its first
500 characters, or substitute the fixed string when text is absent. -/
def chatbot_response (resp : Option String) : String :=
  match resp with
  | some t => pySlice t 500
  | none => "No response."

/-- One chat log entry: a (query, response) pair. -/
structure ChatEntry where
  query : String
  response : String
deriving DecidableEq

/-- Embedding of the "Ask AI" button handler: append one entry, but only
when the query string is non-empty (Python truthiness `if user_query:`). -/
def submitQuery (log : List ChatEntry) (q : String) (resp : Option String) : List ChatEntry :=
  if q = "" then log else log ++ [⟨q, chatbot_response resp⟩]

/-- Run a sequence of submissions (query text plus the optional model text
of the corresponding call) starting from the empty session log. -/
def runChat (subs : List (String × Option String)) : List ChatEntry :=
  subs.foldl (fun log s => submitQuery log s.1 s.2) []

/-- Embedding of the display loop `for chat in reversed(chat_history)`. -/
def displayChat (log : List ChatEntry) : List ChatEntry :=
  log.reverse

/-- C6: the stored chat response never exceeds 500 characters; present model
text is truncated to its first 500 characters and absent text yields the
fixed string. -/
theorem chatbot_response_spec :
    (∀ resp : Option String, (chatbot_response resp).length ≤ 500) ∧
    (∀ t : String, chatbot_response (some t) = pySlice t 500) ∧
    chatbot_response none = "No response." := by
  refine ⟨?_, fun _ => rfl, rfl⟩
  intro resp
  cases resp with
  | none => decide
  | some t =>
      show (t.data.take 500).length ≤ 500
      simp [List.length_take]

theorem runChat_append (subs : List (String × Option String)) :
    ∀ log : List ChatEntry,
      subs.all (fun s => decide (s.1 ≠ "")) = true →
      subs.foldl (fun log s => submitQuery log s.1 s.2) log =
        log ++ subs.map (fun s => ChatEntry.mk s.1 (chatbot_response s.2)) := by
  induction subs with
  | nil => intro log _; simp
  | cons s rest ih =>
      intro log hall
      rw [List.all_cons] at hall
      have hs : s.1 ≠ "" := by simpa using (Bool.and_eq_true_iff.mp hall).1
      have hrest := (Bool.and_eq_true_iff.mp hall).2
      simp only [List.foldl_cons, List.map_cons]
      rw [submitQuery, if_neg hs, ih (log ++ [ChatEntry.mk s.1 (chatbot_response s.2)]) hrest]
      simp

/-- C7: after any sequence of non-empty submissions starting from the empty
log, the log holds exactly one entry per submission in submission order,
the display order is the reverse of that, and each submission only appends
to the existing log (earlier entries are never modified). -/
theorem chat_log_spec (subs : List (String × Option String))
    (hne : subs.all (fun s => decide (s.1 ≠ "")) = true) :
    (runChat subs).length = subs.length ∧
    runChat subs = subs.map (fun s => ChatEntry.mk s.1 (chatbot_response s.2)) ∧
    displayChat (runChat subs) =
      (subs.map (fun s => ChatEntry.mk s.1 (chatbot_response s.2))).reverse ∧
    ∀ (log : List ChatEntry) (q : String) (resp : Option String),
      ∃ tail : List ChatEntry, submitQuery log q resp = log ++ tail := by
  have hrun : runChat subs = subs.map (fun s => ChatEntry.mk s.1 (chatbot_response s.2)) := by
    rw [runChat, runChat_append subs [] hne]
    simp
  refine ⟨by rw [hrun]; simp, hrun, by rw [displayChat, hrun], ?_⟩
  intro log q resp
  unfold submitQuery
  by_cases hq : q = ""
  · exact ⟨[], by rw [if_pos hq]; simp⟩
  · exact ⟨[⟨q, chatbot_response resp⟩], by rw [if_neg hq]⟩

theorem chat_log_spec_witness :
    ([("sales by region", some "Sales rise."), ("trend", none)].all
        (fun s => decide (s.1 ≠ "")) = true) ∧
    runChat [("sales by region", some "Sales rise."), ("trend", none)] =
      [⟨"sales by region", "Sales rise."⟩, ⟨"trend", "No response."⟩] ∧
    displayChat (runChat [("sales by region", some "Sales rise."), ("trend", none)]) =
      [⟨"trend", "No response."⟩, ⟨"sales by region", "Sales rise."⟩] := by
  refine ⟨by decide, ?_, ?_⟩
  · rw [(chat_log_spec [("sales by region", some "Sales rise."), ("trend", none)]
      (by decide)).2.1]
    decide
  · rw [(chat_log_spec [("sales by region", some "Sales rise."), ("trend", none)]
      (by decide)).2.2.1]
    decide

/-! ### Word wrap (`main.py` lines 157-158)

    wrapped_text = textwrap.wrap(summary_text, width=120)[:10]
    bullet_points = "".join(f"<li>...</li>" for line in wrapped_text if line.strip())

`textwrap.wrap` with its default settings collapses whitespace, splits the
text into words, greedily packs words into lines of at most `width`
characters separated by single spaces, and breaks words longer than
`width` so that every emitted line fits.  That contract is embedded below
over character lists. -/

/-- Split a character list into its maximal whitespace-free words (the
accumulator holds the current word, reversed). -/
def wordsAux : List Char → List Char → List (List Char)
  | acc, [] => if acc.isEmpty then [] else [acc.reverse]
  | acc, c :: cs =>
    if c.isWhitespace then
      if acc.isEmpty then wordsAux [] cs else acc.reverse :: wordsAux [] cs
    else wordsAux (c :: acc) cs

/-- The whitespace-separated words of a text. -/
def pyWords (cs : List Char) : List (List Char) := wordsAux [] cs

/-- Cut a word into pieces of at most `width` characters; the fuel is the
word length, which always suffices since every step consumes a character. -/
def chunksOfAux (width : Nat) : Nat → List Char → List (List Char)
  | _, [] => []
  | 0, _ :: _ => []
  | fuel + 1, c :: cs => (c :: cs.take (width - 1)) :: chunksOfAux width fuel (cs.drop (width - 1))

/-- Break one word into pieces of at most `width` characters. -/
def chunksOf (width : Nat) (w : List Char) : List (List Char) :=
  chunksOfAux width w.length w

/-- Greedily extend the current line with the next word (plus a separating
space) while the result still fits in `width`, else emit the line. -/
def fillAux (width : Nat) : List Char → List (List Char) → List (List Char)
  | cur, [] => [cur]
  | cur, w :: ws =>
    if cur.length + 1 + w.length ≤ width then fillAux width (cur ++ ' ' :: w) ws
    else cur :: fillAux width w ws

/-- Pack a word list into lines (empty text produces no lines, as in
Python `textwrap.wrap("...") == []` for blank input). -/
def fillWords (width : Nat) : List (List Char) → List (List Char)
  | [] => []
  | w :: ws => fillAux width w ws

/-- Model of `textwrap.wrap` over character lists. -/
def wrapChars (width : Nat) (cs : List Char) : List (List Char) :=
  fillWords width (((pyWords cs).map (chunksOf width)).flatten)

/-- Model of Python `textwrap.wrap(s, width)`. -/
def pyWrap (width : Nat) (s : String) : List String :=
  (wrapChars width s.data).map String.mk

/-- Embedding of `wrapped_text = textwrap.wrap(summary_text, width=120)[:10]`. -/
def wrapped_text (summary : String) : List String :=
  (pyWrap 120 summary).take 10

/-- Embedding of the bullet items of the HTML fragment: the stripped form of
every wrapped line whose stripped form is non-empty (Python truthiness of
`line.strip()`). -/
def bullet_items (summary : String) : List String :=
  ((wrapped_text summary).filter (fun l => !(pyStrip l).isEmpty)).map (fun l => pyStrip l)

theorem chunksOfAux_le (width : Nat) (hw : 1 ≤ width) :
    ∀ (fuel : Nat) (cs : List Char), ∀ l ∈ chunksOfAux width fuel cs, l.length ≤ width := by
  intro fuel
  induction fuel with
  | zero =>
      intro cs l hl
      cases cs <;> simp [chunksOfAux] at hl
  | succ n ih =>
      intro cs l hl
      cases cs with
      | nil => simp [chunksOfAux] at hl
      | cons c cs' =>
          simp only [chunksOfAux, List.mem_cons] at hl
          cases hl with
          | inl h =>
              subst h
              simp only [List.length_cons, List.length_take]
              omega
          | inr h => exact ih (cs'.drop (width - 1)) l h

theorem fillAux_le (width : Nat) :
    ∀ (ws : List (List Char)) (cur : List Char),
      cur.length ≤ width → (∀ w ∈ ws, w.length ≤ width) →
      ∀ l ∈ fillAux width cur ws, l.length ≤ width := by
  intro ws
  induction ws with
  | nil =>
      intro cur hcur _ l hl
      simp only [fillAux, List.mem_singleton] at hl
      exact hl ▸ hcur
  | cons w ws' ih =>
      intro cur hcur hws l hl
      simp only [fillAux] at hl
      by_cases h : cur.length + 1 + w.length ≤ width
      · rw [if_pos h] at hl
        refine ih (cur ++ ' ' :: w) ?_ (fun v hv => hws v (List.mem_cons_of_mem w hv)) l hl
        simp only [List.length_append, List.length_cons]
        omega
      · rw [if_neg h] at hl
        cases List.mem_cons.mp hl with
        | inl he => exact he ▸ hcur
        | inr he =>
            exact ih w (hws w (List.mem_cons_self w ws'))
              (fun v hv => hws v (List.mem_cons_of_mem w hv)) l he

theorem fillWords_le (width : Nat) (ws : List (List Char))
    (hws : ∀ w ∈ ws, w.length ≤ width) :
    ∀ l ∈ fillWords width ws, l.length ≤ width := by
  cases ws with
  | nil => intro l hl; simp [fillWords] at hl
  | cons w ws' =>
      exact fillAux_le width ws' w (hws w (List.mem_cons_self w ws'))
        (fun v hv => hws v (List.mem_cons_of_mem w hv))

theorem wrapChars_le (width : Nat) (hw : 1 ≤ width) (cs : List Char) :
    ∀ l ∈ wrapChars width cs, l.length ≤ width := by
  intro l hl
  refine fillWords_le width _ ?_ l hl
  intro w hw'
  rw [List.mem_flatten] at hw'
  obtain ⟨L, hL, hwL⟩ := hw'
  rw [List.mem_map] at hL
  obtain ⟨w0, _, hw0⟩ := hL
  subst hw0
  exact chunksOfAux_le width hw w0.length w0 w hwL

theorem pyWrap_le (width : Nat) (hw : 1 ≤ width) (s : String) :
    ∀ l ∈ pyWrap width s, l.length ≤ width := by
  intro l hl
  rw [pyWrap, List.mem_map] at hl
  obtain ⟨l0, hl0, hmk⟩ := hl
  subst hmk
  show l0.length ≤ width
  exact wrapChars_le width hw s.data l0 hl0

/-- C5: the export wrap step yields at most 10 lines of at most 120
characters each, and every bullet item of the HTML fragment is the
stripped, non-blank form of one of those wrapped lines. -/
theorem wrapped_text_bounds :
    ∀ s : String,
      (wrapped_text s).length ≤ 10 ∧
      (wrapped_text s).all (fun l => decide (l.length ≤ 120)) = true ∧
      (bullet_items s).all (fun b => decide (b ∈ (wrapped_text s).map pyStrip)) = true ∧
      (bullet_items s).all (fun b => !b.isEmpty) = true := by
  intro s
  refine ⟨?_, ?_, ?_, ?_⟩
  · simp only [wrapped_text, List.length_take]
    omega
  · rw [List.all_eq_true]
    intro l hl
    rw [decide_eq_true_eq]
    exact pyWrap_le 120 (by omega) s l (List.take_subset 10 (pyWrap 120 s) hl)
  · rw [List.all_eq_true]
    intro b hb
    rw [decide_eq_true_eq]
    rw [bullet_items, List.mem_map] at hb
    obtain ⟨l, hl, hstrip⟩ := hb
    exact hstrip ▸ List.mem_map_of_mem (fun l => pyStrip l) (List.mem_of_mem_filter hl)
  · rw [List.all_eq_true]
    intro b hb
    rw [bullet_items, List.mem_map] at hb
    obtain ⟨l, hl, hstrip⟩ := hb
    have := List.of_mem_filter hl
    exact hstrip ▸ this

/-! ### Report Exporter PDF (`main.py` lines 24-43 and 175-179)

    def generate_pdf(summary_text, file_name="Business_Report.pdf"):
        c = canvas.Canvas(file_name, pagesize=letter)
        ...
        c.drawString(100, height - 50, "Business Report - Data Insights")
        ...
        for line in summary_text.split("\n"):
            text.textLine(line)
        ...

    generate_pdf(summary_text=summary_text, file_name=pdf_path)
    st.download_button("📥 Download Report", file,
                       file_name="Business_Report.pdf", mime="application/pdf")

The document is modelled by its observable layout parameters: the reportlab
`letter` page size is 612 x 792 points, the title is drawn in
Helvetica-Bold 16, and the body is drawn line by line in Helvetica 12.
Crucially, the body lines are `summary_text.split("\n")` — the raw text
split at newline characters, not the 120-column `textwrap` output used for
the HTML fragment. -/

/-- The observable content of the generated PDF. -/
structure PdfDoc where
  pageWidth : Nat
  pageHeight : Nat
  title : String
  titleFont : String
  titleSize : Nat
  bodyFont : String
  bodySize : Nat
  bodyLines : List String
deriving DecidableEq

/-- Embedding of `generate_pdf`: returns the document content and the file
name it is saved under (the function's return value). -/
def generate_pdf (summary_text : String) (file_name : String) : PdfDoc × String :=
  (⟨612, 792, "Business Report - Data Insights", "Helvetica-Bold", 16,
    "Helvetica", 12, pySplitChar '\n' summary_text⟩, file_name)

/-- Embedding of the export action (lines 175-179): generate the PDF at the
fixed path and offer it for download under a fixed name and MIME type. -/
def exportDownload (summary_text : String) : PdfDoc × String × String :=
  ((generate_pdf summary_text "Business_Report.pdf").1,
    "Business_Report.pdf", "application/pdf")

/-- Modelled from the spec's words, for the refinement comparison only: the
spec claims the PDF body is the summary "laid out as fixed-width wrapped
lines"; the one fixed wrap width in the program is 120. -/
def specWrappedBody (summary_text : String) : List String :=
  pyWrap 120 summary_text

/-- Join character-list lines with a separator, inverse of `splitChar`. -/
def joinChar (sep : Char) : List (List Char) → List Char
  | [] => []
  | [l] => l
  | l :: l' :: ls => l ++ sep :: joinChar sep (l' :: ls)

theorem consHead_ne_nil (c : Char) (L : List (List Char)) : consHead c L ≠ [] := by
  cases L <;> simp [consHead]

theorem splitChar_ne_nil (sep : Char) : ∀ cs : List Char, splitChar sep cs ≠ [] := by
  intro cs
  cases cs with
  | nil => simp [splitChar]
  | cons c cs' =>
      rw [splitChar]
      by_cases h : c = sep
      · rw [if_pos h]; simp
      · rw [if_neg h]; exact consHead_ne_nil c _

theorem joinChar_consHead (sep c : Char) (L : List (List Char)) (h : L ≠ []) :
    joinChar sep (consHead c L) = c :: joinChar sep L := by
  cases L with
  | nil => exact absurd rfl h
  | cons l ls =>
      cases ls with
      | nil => rfl
      | cons l' ls' => simp [consHead, joinChar]

theorem joinChar_splitChar (sep : Char) : ∀ cs : List Char,
    joinChar sep (splitChar sep cs) = cs := by
  intro cs
  induction cs with
  | nil => rfl
  | cons c cs' ih =>
      rw [splitChar]
      by_cases h : c = sep
      · rw [if_pos h]
        obtain ⟨l, ls, hls⟩ := List.exists_cons_of_ne_nil (splitChar_ne_nil sep cs')
        rw [hls]
        rw [hls] at ih
        simp only [joinChar, List.nil_append]
        rw [ih, h]
      · rw [if_neg h]
        rw [joinChar_consHead sep c _ (splitChar_ne_nil sep cs'), ih]

set_option maxRecDepth 4000 in
/-- C2 counterexample: the PDF body is the raw summary split at newline
characters, not the fixed-width wrapped lines.  At `"x\ny"` the body is
`["x", "y"]` while the 120-column wrap is `["x y"]`; and a summary that is
one 121-character line appears in the body unbroken, exceeding the fixed
wrap width entirely. -/
theorem generate_pdf_body_not_wrapped :
    (generate_pdf "x\ny" "Business_Report.pdf").1.bodyLines = ["x", "y"] ∧
    specWrappedBody "x\ny" = ["x y"] ∧
    (["x", "y"] : List String) ≠ ["x y"] ∧
    (generate_pdf (String.mk (List.replicate 121 'a')) "Business_Report.pdf").1.bodyLines =
      [String.mk (List.replicate 121 'a')] ∧
    120 < (String.mk (List.replicate 121 'a')).length := by
  refine ⟨by decide, by decide, by decide, by decide, by decide⟩

/-- C2 (amended): the exported PDF has the fixed letter page size, the fixed
title in Helvetica-Bold 16 and the body in Helvetica 12, and its body is
the summary text verbatim, split at newline characters (joining the body
lines with newlines recovers the summary exactly); the function returns
the requested file path, and the download is offered under the fixed name
`Business_Report.pdf` with MIME type `application/pdf`. -/
theorem generate_pdf_amended_spec :
    ∀ s fn : String,
      (generate_pdf s fn).1.pageWidth = 612 ∧
      (generate_pdf s fn).1.pageHeight = 792 ∧
      (generate_pdf s fn).1.title = "Business Report - Data Insights" ∧
      (generate_pdf s fn).1.titleFont = "Helvetica-Bold" ∧
      (generate_pdf s fn).1.titleSize = 16 ∧
      (generate_pdf s fn).1.bodyFont = "Helvetica" ∧
      (generate_pdf s fn).1.bodySize = 12 ∧
      joinChar '\n' ((generate_pdf s fn).1.bodyLines.map String.data) = s.data ∧
      (generate_pdf s fn).2 = fn ∧
      (exportDownload s).2.1 = "Business_Report.pdf" ∧
      (exportDownload s).2.2 = "application/pdf" := by
  intro s fn
  refine ⟨rfl, rfl, rfl, rfl, rfl, rfl, rfl, ?_, rfl, rfl, rfl⟩
  show joinChar '\n' ((pySplitChar '\n' s).map String.data) = s.data
  rw [pySplitChar, List.map_map]
  have : (String.data ∘ String.mk) = id := rfl
  rw [this, List.map_id]
  exact joinChar_splitChar '\n' s.data
